import Mathlib

/-!
Verification of the Redis-like database server (`RedisCopyDatabase.py`).

The wire protocol codec (`ProtocolHandler`), the key-value store operations,
the command dispatcher (`Server.get_response`) and one iteration of the
per-connection loop (`Server.connection_handler`) are embedded as executable
Lean functions.  Python text strings are modelled by their UTF-8 byte
sequences, so `str.encode("utf-8")`/`bytes.decode()` are identities of the
model; byte streams are lists of natural numbers (one per byte).
-/

namespace RedisDB


/-- Model of Python `socket_file.readline()` on a byte stream: the bytes up
to and including the first LF (byte 10), or the whole stream if none. -/
def readline : List Nat → List Nat × List Nat
  | [] => ([], [])
  | b :: t =>
    if b = 10 then ([10], t)
    else
      let (l, r) := readline t
      (b :: l, r)

/-- Model of Python `bytes.rstrip(b"\x5cr\x5cn")`: drop all trailing CR/LF
bytes. -/
def rstripCRLF (s : List Nat) : List Nat :=
  (s.reverse.dropWhile (fun b => b == 13 || b == 10)).reverse

/-- Model of Python `socket_file.read(n)` for an integer count, returning the
bytes read and the remaining stream.  As for a Python buffered file, a
negative count reads the whole rest of the stream, and fewer than `n` bytes
are returned at end of stream. -/
def pyRead (n : Int) (s : List Nat) : List Nat × List Nat :=
  if n < 0 then (s, []) else (s.take n.toNat, s.drop n.toNat)

/-- Model of Python `b[:-2]`: all but the last two bytes. -/
def dropTail2 (l : List Nat) : List Nat := l.take (l.length - 2)

/-- Helper for decimal printing, with fuel to make the division recursion
structural; `natToDigits` always supplies enough fuel. -/
def natDigitsAux : Nat → Nat → List Nat
  | 0, _ => []
  | fuel + 1, n => if n < 10 then [48 + n] else natDigitsAux fuel (n / 10) ++ [48 + n % 10]

/-- Decimal ASCII digits of a natural number, as Python `str(n)` for
`n ≥ 0`. -/
def natToDigits (n : Nat) : List Nat := natDigitsAux (n + 1) n

/-- Decimal ASCII form of an integer, as Python f-string interpolation of an
`int` (a leading `-` for negatives, digits otherwise). -/
def intToDigits (i : Int) : List Nat :=
  if i < 0 then 45 :: natToDigits (-i).toNat else natToDigits i.toNat

def isDigit (b : Nat) : Bool := 48 ≤ b && b ≤ 57

/-- Numeric value of a digit string (most significant first). -/
def digitsVal (s : List Nat) : Nat := s.foldl (fun a b => a * 10 + (b - 48)) 0

/-- Parse a nonempty unsigned ASCII decimal numeral. -/
def parseDigits (s : List Nat) : Option Nat :=
  if !s.isEmpty && s.all isDigit then some (digitsVal s) else none

/-- Model of Python `int(bytes_line)` restricted to an optional single sign
followed by digits.  (Python `int` additionally tolerates surrounding
whitespace and inner underscores; neither occurs in frames produced by the
encoder, and a failed parse raises `ValueError`, which the model reports as a
parse failure.) -/
def parseIntBytes (s : List Nat) : Option Int :=
  match s with
  | [] => none
  | b :: t =>
    if b = 45 then (parseDigits t).map (fun n => -(n : Int))
    else if b = 43 then (parseDigits t).map (fun n => (n : Int))
    else (parseDigits (b :: t)).map (fun n => (n : Int))

mutual
/-- Wire values, mirroring the Python value space handled by
`ProtocolHandler`: `None`, `int`, `str` (kept as its UTF-8 bytes), raw
`bytes`, `Error(message)` (the namedtuple), `list`, and `dict`
(insertion-ordered key/value pairs). -/
inductive Val where
  | null : Val
  | int (n : Int) : Val
  | str (s : List Nat) : Val
  | bytes (b : List Nat) : Val
  | err (msg : List Nat) : Val
  | list (vs : ValList) : Val
  | dict (ps : PairList) : Val
deriving DecidableEq

/-- A sequence of wire values (a Python list). -/
inductive ValList where
  | nil : ValList
  | cons (v : Val) (t : ValList) : ValList
deriving DecidableEq

/-- An insertion-ordered sequence of key/value pairs (a Python dict, and the
shape of the server's `_kv` mapping). -/
inductive PairList where
  | nil : PairList
  | cons (k v : Val) (t : PairList) : PairList
deriving DecidableEq
end

def ValList.length : ValList → Nat
  | .nil => 0
  | .cons _ t => t.length + 1

def PairList.length : PairList → Nat
  | .nil => 0
  | .cons _ _ t => t.length + 1

def PairList.append : PairList → PairList → PairList
  | .nil, q => q
  | .cons k v t, q => .cons k v (t.append q)

def reverseP : PairList → PairList
  | .nil => .nil
  | .cons k v t => (reverseP t).append (.cons k v .nil)

mutual
/-- Model of `ProtocolHandler._write`: encode one value.  A Python `str` is
first converted to its UTF-8 bytes, so `str` and `bytes` share the
bulk-string rule `$len CRLF payload CRLF`; `int` is `:n CRLF`; an `Error` is
`-msg CRLF`; a list is `*count CRLF` then the elements; a dict is
`%count CRLF` then the pairs in insertion order; `None` is `$-1 CRLF`. -/
def encodeVal : Val → List Nat
  | .str s => 36 :: natToDigits s.length ++ [13, 10] ++ s ++ [13, 10]
  | .bytes b => 36 :: natToDigits b.length ++ [13, 10] ++ b ++ [13, 10]
  | .int n => 58 :: intToDigits n ++ [13, 10]
  | .err m => 45 :: m ++ [13, 10]
  | .list vs => 42 :: natToDigits vs.length ++ [13, 10] ++ encodeList vs
  | .dict ps => 37 :: natToDigits ps.length ++ [13, 10] ++ encodePairs ps
  | .null => [36, 45, 49, 13, 10]

/-- Concatenated encodings of the elements of a list. -/
def encodeList : ValList → List Nat
  | .nil => []
  | .cons v t => encodeVal v ++ encodeList t

/-- Concatenated encodings of the key/value pairs of a dict. -/
def encodePairs : PairList → List Nat
  | .nil => []
  | .cons k v t => encodeVal k ++ encodeVal v ++ encodePairs t
end

/-- Failure of `ProtocolHandler.handle_request`: `disconnect` is the
`Disconnect` raised on an empty read at a tag position; `badRequest` is the
`CommandError("bad request")` raised for an unrecognized nonempty tag byte;
`malformed` covers exceptions escaping the per-type handlers (`ValueError`
from `int()`, `TypeError` from an unhashable dict key) as well as fuel
exhaustion of this embedding.  None of the three is caught inside
`connection_handler` except `disconnect`. -/
inductive DErr where
  | disconnect : DErr
  | badRequest : DErr
  | malformed : DErr
deriving DecidableEq

/-- Python `hash(v)` succeeds: lists and dicts are unhashable; every other
value in the model (`None`, `int`, `str`, `bytes`, `Error`) is hashable. -/
def hashable : Val → Bool
  | .list _ => false
  | .dict _ => false
  | _ => true

/-- Dictionary lookup, Python `d.get(k)` restricted to hashable keys (the
callers check hashability). -/
def pyLookup : PairList → Val → Option Val
  | .nil, _ => none
  | .cons k v t, key => if k = key then some v else pyLookup t key

def containsKey (ps : PairList) (key : Val) : Bool := (pyLookup ps key).isSome

/-- Python `d[k] = v`: replace the value of an existing key in place (the
stored key object is kept), otherwise append the new pair at the end. -/
def pyInsert : PairList → Val → Val → PairList
  | .nil, k, v => .cons k v .nil
  | .cons k0 v0 t, k, v =>
    if k0 = k then .cons k0 v t else .cons k0 v0 (pyInsert t k v)

/-- Python `d.pop(k, None)`: the removed value (if any) and the remaining
mapping; the pair is removed whatever its value is. -/
def pyPop : PairList → Val → Option Val × PairList
  | .nil, _ => (none, .nil)
  | .cons k0 v0 t, k =>
    if k0 = k then (some v0, t)
    else
      let (r, t') := pyPop t k
      (r, .cons k0 v0 t')

/-- Model of `zip(elements[0::2], elements[1::2])` as used by `handle_dict`
and `Server.mset`: consecutive elements paired in order, a trailing unpaired
element dropped. -/
def pairUpV : ValList → PairList
  | .cons a (.cons b t) => .cons a b (pairUpV t)
  | _ => .nil

/-- Interleaved keys and values of a pair list (inverse of `pairUpV` on
even-length lists). -/
def flattenPairs : PairList → ValList
  | .nil => .nil
  | .cons k v t => .cons k (.cons v (flattenPairs t))

def keysHashable : PairList → Bool
  | .nil => true
  | .cons k _ t => hashable k && keysHashable t

def keysDistinct : PairList → Bool
  | .nil => true
  | .cons k _ t => !containsKey t k && keysDistinct t

/-- The insertion loop of Python `dict(pairs)`: insert pairs left to right,
so a repeated key keeps its first position and takes its last value. -/
def pyDictAux : PairList → PairList → PairList
  | acc, .nil => acc
  | acc, .cons k v t => pyDictAux (pyInsert acc k v) t

/-- Model of `dict(zip(elements[0::2], elements[1::2]))`. -/
def pyDictOfPairs (ps : PairList) : PairList := pyDictAux .nil ps

/-- Element loop of `handle_array`/`handle_dict`: run the decoder `step`
`n` times, threading the stream and propagating the first failure, as the
Python list comprehension over `range(n)` does. -/
def decodeN (step : List Nat → Except DErr (Val × List Nat)) :
    Nat → List Nat → Except DErr (ValList × List Nat)
  | 0, s => .ok (.nil, s)
  | n + 1, s =>
    match step s with
    | .ok (v, s') =>
      match decodeN step n s' with
      | .ok (vs, s'') => .ok (.cons v vs, s'')
      | .error e => .error e
    | .error e => .error e

/-- Model of `ProtocolHandler.handle_request`: read one tag byte and decode
one value, returning the value and the unconsumed rest of the stream.  The
fuel argument makes the recursion structural; it bounds nesting depth only
and is always sufficient for streams the encoder can produce.  Cases follow
the `handlers` table: `+` simple string, `-` error, `:` integer, `$` bulk
string (`-1` length decodes to `None`), `*` array, `%` dict; an empty read
raises `Disconnect`, any other tag byte raises `CommandError`.  Note the
bulk-string payload is returned as text (`.str`), and `dict(zip(...))`
raises `TypeError` on an unhashable key. -/
def handle_request : Nat → List Nat → Except DErr (Val × List Nat)
  | 0, _ => .error .malformed
  | fuel + 1, stream =>
    match stream with
    | [] => .error .disconnect
    | b :: t =>
      if b = 43 then
        let (line, r) := readline t
        .ok (.str (rstripCRLF line), r)
      else if b = 45 then
        let (line, r) := readline t
        .ok (.err (rstripCRLF line), r)
      else if b = 58 then
        let (line, r) := readline t
        match parseIntBytes (rstripCRLF line) with
        | some n => .ok (.int n, r)
        | none => .error .malformed
      else if b = 36 then
        let (line, r) := readline t
        match parseIntBytes (rstripCRLF line) with
        | some len =>
          if len = -1 then .ok (.null, r)
          else
            let (chunk, r') := pyRead (len + 2) r
            .ok (.str (dropTail2 chunk), r')
        | none => .error .malformed
      else if b = 42 then
        let (line, r) := readline t
        match parseIntBytes (rstripCRLF line) with
        | some n =>
          match decodeN (handle_request fuel) n.toNat r with
          | .ok (vs, r') => .ok (.list vs, r')
          | .error e => .error e
        | none => .error .malformed
      else if b = 37 then
        let (line, r) := readline t
        match parseIntBytes (rstripCRLF line) with
        | some n =>
          match decodeN (handle_request fuel) (n.toNat * 2) r with
          | .ok (es, r') =>
            if keysHashable (pairUpV es) then .ok (.dict (pyDictOfPairs (pairUpV es)), r')
            else .error .malformed
          | .error e => .error e
        | none => .error .malformed
      else .error .badRequest

/-- Decode one value from a byte stream (`handle_request` with fuel that any
stream of that length can need). -/
def decode (s : List Nat) : Except DErr (Val × List Nat) :=
  handle_request (s.length + 1) s

/-- The server's `_kv` dictionary; in every state reachable from the empty
initial store its keys are pairwise distinct. -/
abbrev Store := PairList

/-- Result of `Server.get_response`: a normal response value, a raised
`CommandError` (caught in `connection_handler` and answered with an `Error`
frame), or an uncaught Python exception — `TypeError` from calling a command
with the wrong number of arguments or from an unhashable key,
`AttributeError` from `.upper()` on a non-string — which escapes the loop
and kills the connection. -/
inductive Outcome where
  | ok (resp : Val) : Outcome
  | cmdErr (msg : List Nat) : Outcome
  | fatal : Outcome
deriving DecidableEq

/-- ASCII upper-casing of one byte. -/
def upperByte (b : Nat) : Nat := if 97 ≤ b && b ≤ 122 then b - 32 else b

/-- Model of `str.upper()` (and `bytes.upper()`) restricted to ASCII.
(Python `str.upper` also maps some non-ASCII characters; command names are
compared against ASCII keys, and arguments are never case-folded at all.) -/
def upperB (s : List Nat) : List Nat := s.map upperByte

def GETb : List Nat := [71, 69, 84]
def SETb : List Nat := [83, 69, 84]
def DELETEb : List Nat := [68, 69, 76, 69, 84, 69]
def FLUSHb : List Nat := [70, 76, 85, 83, 72]
def MGETb : List Nat := [77, 71, 69, 84]
def MSETb : List Nat := [77, 83, 69, 84]

/-- Bytes of the message of `CommandError("Request must be list.")`. -/
def msgMustBeList : List Nat :=
  [82, 101, 113, 117, 101, 115, 116, 32, 109, 117, 115, 116, 32, 98, 101, 32,
   108, 105, 115, 116, 46]

/-- Bytes of the message of `CommandError("Missing command")`. -/
def msgMissing : List Nat :=
  [77, 105, 115, 115, 105, 110, 103, 32, 99, 111, 109, 109, 97, 110, 100]

/-- Bytes of the message of `CommandError(f"Unrecognized command: X")`. -/
def msgUnrecognized (cmd : List Nat) : List Nat :=
  [85, 110, 114, 101, 99, 111, 103, 110, 105, 122, 101, 100, 32, 99, 111,
   109, 109, 97, 110, 100, 58, 32] ++ cmd

/-- Python `repr` of a bytes object as interpolated into the f-string when
the first request element is `bytes` (escaping of non-printable bytes is not
modelled; this path is unreachable from decoded requests, which never
contain `bytes`). -/
def bytesRepr (b : List Nat) : List Nat := 98 :: 39 :: b ++ [39]

/-- Model of `Server.get(key)`: `self._kv.get(key)`, an absent key giving
`None`. -/
def cmdGet (kv : Store) (k : Val) : Outcome × Store :=
  if hashable k then (.ok ((pyLookup kv k).getD .null), kv) else (.fatal, kv)

/-- Model of `Server.set(key, value)`: store the pair, answer 1. -/
def cmdSet (kv : Store) (k v : Val) : Outcome × Store :=
  if hashable k then (.ok (.int 1), pyInsert kv k v) else (.fatal, kv)

/-- Model of `Server.delete(key)`:
`1 if self._kv.pop(key, None) is not None else 0`.  The popped value, not
the key's presence, decides the result: a key stored with value `None`
answers 0 although the pair is removed. -/
def cmdDelete (kv : Store) (k : Val) : Outcome × Store :=
  if hashable k then
    let (r, kv') := pyPop kv k
    (.ok (.int (match r with
      | some v => if v = .null then 0 else 1
      | none => 0)), kv')
  else (.fatal, kv)

/-- Model of `Server.flush()`: answer the prior entry count, clear the
store. -/
def cmdFlush (kv : Store) : Outcome × Store := (.ok (.int kv.length), .nil)

/-- The comprehension `[self._kv.get(key) for key in keys]`, failing at the
first unhashable key. -/
def mgetLoop (kv : Store) : ValList → Option ValList
  | .nil => some .nil
  | .cons k t =>
    if hashable k then
      (mgetLoop kv t).map (fun r => .cons ((pyLookup kv k).getD .null) r)
    else none

/-- Model of `Server.mget(*keys)`. -/
def cmdMget (kv : Store) (keys : ValList) : Outcome × Store :=
  match mgetLoop kv keys with
  | some vs => (.ok (.list vs), kv)
  | none => (.fatal, kv)

/-- The `for key, value in zip(items[0::2], items[1::2])` loop of
`Server.mset`; a `TypeError` on an unhashable key leaves the pairs already
processed in the store. -/
def msetLoop (kv : Store) : PairList → Except Store Store
  | .nil => .ok kv
  | .cons k v t => if hashable k then msetLoop (pyInsert kv k v) t else .error kv

/-- Model of `Server.mset(*items)`: set the pairs in order, answer
`len(items) // 2`. -/
def cmdMset (kv : Store) (items : ValList) : Outcome × Store :=
  match msetLoop kv (pairUpV items) with
  | .ok kv' => (.ok (.int (items.length / 2)), kv')
  | .error kvp => (.fatal, kvp)

/-- Model of `Server.get_response`: reject a non-list request and an empty
request with `CommandError`; upper-case the first element only to obtain the
command name; an unknown name is a `CommandError`; a known name is called on
the remaining elements unmodified, and a wrong argument count raises
`TypeError` (fatal), not `CommandError`.  A `bytes` first element also has
an `.upper()` method but its f-string `repr` never matches a command name;
any other first element has no `.upper()` and raises `AttributeError`
(fatal). -/
def get_response (kv : Store) (data : Val) : Outcome × Store :=
  match data with
  | .list .nil => (.cmdErr msgMissing, kv)
  | .list (.cons h args) =>
    match h with
    | .str s =>
      let command := upperB s
      if command = GETb then
        match args with
        | .cons k .nil => cmdGet kv k
        | _ => (.fatal, kv)
      else if command = SETb then
        match args with
        | .cons k (.cons v .nil) => cmdSet kv k v
        | _ => (.fatal, kv)
      else if command = DELETEb then
        match args with
        | .cons k .nil => cmdDelete kv k
        | _ => (.fatal, kv)
      else if command = FLUSHb then
        match args with
        | .nil => cmdFlush kv
        | _ => (.fatal, kv)
      else if command = MGETb then cmdMget kv args
      else if command = MSETb then cmdMset kv args
      else (.cmdErr (msgUnrecognized command), kv)
    | .bytes b => (.cmdErr (msgUnrecognized (bytesRepr (upperB b))), kv)
    | _ => (.fatal, kv)
  | _ => (.cmdErr msgMustBeList, kv)

/-- Fate of one iteration of the `while True` loop in
`Server.connection_handler`: the connection closes cleanly on `Disconnect`
(the loop breaks), closes abruptly when an uncaught exception kills its
execution unit (nothing is written), or writes one response frame and
continues on the remaining input. -/
inductive ConnOutcome where
  | closedClean : ConnOutcome
  | closedCrash : ConnOutcome
  | reply (response : List Nat) (rest : List Nat) : ConnOutcome
deriving DecidableEq

/-- One iteration of `Server.connection_handler`: decode one request, then
dispatch.  Only `Disconnect` is caught around the decode, so a decode-time
`CommandError` (unrecognized tag) or any other decode exception kills the
connection with no response; around dispatch only `CommandError` is caught
and answered with an `Error` frame, so an uncaught dispatch exception also
kills the connection.  The shared store is returned alongside. -/
def connStep (kv : Store) (s : List Nat) : ConnOutcome × Store :=
  match decode s with
  | .error .disconnect => (.closedClean, kv)
  | .error .badRequest => (.closedCrash, kv)
  | .error .malformed => (.closedCrash, kv)
  | .ok (data, rest) =>
    match get_response kv data with
    | (.ok resp, kv') => (.reply (encodeVal resp) rest, kv')
    | (.cmdErr msg, kv') => (.reply (encodeVal (.err msg)) rest, kv')
    | (.fatal, kv') => (.closedCrash, kv')

/-! ## Lemmas about decimal printing and parsing -/

theorem natDigitsAux_all_digits (fuel n : Nat) :
    ∀ b ∈ natDigitsAux fuel n, isDigit b = true := by
  induction fuel generalizing n with
  | zero => intro b hb; simp [natDigitsAux] at hb
  | succ f ih =>
    intro b hb
    simp only [natDigitsAux] at hb
    split at hb
    · rename_i h
      simp at hb
      subst hb
      simp only [isDigit, Bool.and_eq_true, decide_eq_true_eq]
      omega
    · rename_i h
      rw [List.mem_append] at hb
      rcases hb with hb | hb
      · exact ih _ b hb
      · simp at hb
        subst hb
        simp only [isDigit, Bool.and_eq_true, decide_eq_true_eq]
        omega

theorem natDigitsAux_ne_nil (fuel n : Nat) (h : n < fuel) :
    natDigitsAux fuel n ≠ [] := by
  cases fuel with
  | zero => omega
  | succ f =>
    simp only [natDigitsAux]
    split
    · simp
    · simp

theorem digitsVal_append (xs : List Nat) (d : Nat) :
    digitsVal (xs ++ [d]) = digitsVal xs * 10 + (d - 48) := by
  simp [digitsVal, List.foldl_append]

theorem natDigitsAux_val (fuel n : Nat) (h : n < fuel) :
    digitsVal (natDigitsAux fuel n) = n := by
  induction fuel generalizing n with
  | zero => omega
  | succ f ih =>
    simp only [natDigitsAux]
    split
    · rename_i hlt
      simp [digitsVal]
    · rename_i hge
      have hdiv : n / 10 < n := Nat.div_lt_self (by omega) (by omega)
      rw [digitsVal_append, ih _ (by omega)]
      omega

theorem natToDigits_all_digits (n : Nat) :
    ∀ b ∈ natToDigits n, isDigit b = true :=
  natDigitsAux_all_digits (n + 1) n

theorem natToDigits_ne_nil (n : Nat) : natToDigits n ≠ [] :=
  natDigitsAux_ne_nil (n + 1) n (by omega)

theorem parseDigits_natToDigits (n : Nat) :
    parseDigits (natToDigits n) = some n := by
  have hall : (natToDigits n).all isDigit = true := by
    rw [List.all_eq_true]
    exact natToDigits_all_digits n
  have hie : (natToDigits n).isEmpty = false := by
    cases hn : natToDigits n with
    | nil => exact absurd hn (natToDigits_ne_nil n)
    | cons b t => rfl
  have hval : digitsVal (natToDigits n) = n := natDigitsAux_val (n + 1) n (by omega)
  simp [parseDigits, hall, hie, hval]

theorem parseIntBytes_natToDigits (n : Nat) :
    parseIntBytes (natToDigits n) = some (n : Int) := by
  cases hn : natToDigits n with
  | nil => exact absurd hn (natToDigits_ne_nil n)
  | cons b t =>
    have hb : isDigit b = true := natToDigits_all_digits n b (by simp [hn])
    have hb' : 48 ≤ b ∧ b ≤ 57 := by
      simpa [isDigit, Bool.and_eq_true, decide_eq_true_eq] using hb
    have h45 : ¬(b = 45) := by omega
    have h43 : ¬(b = 43) := by omega
    simp only [parseIntBytes, if_neg h45, if_neg h43]
    rw [← hn, parseDigits_natToDigits]
    rfl

theorem parseIntBytes_intToDigits (i : Int) :
    parseIntBytes (intToDigits i) = some i := by
  by_cases hneg : i < 0
  · simp only [intToDigits, if_pos hneg]
    simp only [parseIntBytes, if_pos rfl]
    rw [parseDigits_natToDigits]
    show some (-(((-i).toNat : Nat) : Int)) = some i
    congr 1
    omega
  · simp only [intToDigits, if_neg hneg]
    rw [parseIntBytes_natToDigits]
    congr 1
    omega

theorem intToDigits_no_crlf (i : Int) :
    ∀ b ∈ intToDigits i, b ≠ 10 ∧ b ≠ 13 := by
  intro b hb
  have hdig : ∀ m, ∀ c ∈ natToDigits m, c ≠ 10 ∧ c ≠ 13 := by
    intro m c hc
    have := natToDigits_all_digits m c hc
    simp [isDigit] at this
    omega
  simp only [intToDigits] at hb
  split at hb
  · rcases List.mem_cons.mp hb with h | h
    · omega
    · exact hdig _ b h
  · exact hdig _ b hb

/-! ## Lemmas about line reading and CRLF stripping -/

theorem readline_append (c rest : List Nat) (h10 : ∀ b ∈ c, b ≠ 10) :
    readline (c ++ 13 :: 10 :: rest) = (c ++ [13, 10], rest) := by
  induction c with
  | nil => simp [readline]
  | cons b t ih =>
    have hb : b ≠ 10 := h10 b (by simp)
    simp only [List.cons_append, readline, if_neg hb, List.append_eq]
    rw [ih (fun x hx => h10 x (by simp [hx]))]

theorem rstripCRLF_append (c : List Nat) (h10 : ∀ b ∈ c, b ≠ 10)
    (h13 : c.getLast? ≠ some 13) :
    rstripCRLF (c ++ [13, 10]) = c := by
  have hrw : (c ++ [13, 10]).reverse = 10 :: 13 :: c.reverse := by
    simp
  have hstep : List.dropWhile (fun b => b == 13 || b == 10) (10 :: 13 :: c.reverse)
      = List.dropWhile (fun b => b == 13 || b == 10) c.reverse := by
    rw [List.dropWhile_cons, List.dropWhile_cons]
    norm_num
  simp only [rstripCRLF, hrw, hstep]
  cases hrev : c.reverse with
  | nil =>
    have : c = [] := by simpa using congrArg List.reverse hrev
    simp [this]
  | cons h tl =>
    have hmem : h ∈ c := by
      have : h ∈ c.reverse := by simp [hrev]
      simpa using this
    have hh10 : h ≠ 10 := h10 h hmem
    have hh13 : h ≠ 13 := by
      intro hcontr
      apply h13
      rw [← List.head?_reverse, hrev, hcontr]
      rfl
    have hcond : (h == 13 || h == 10) = false := by
      simp [hh10, hh13]
    rw [List.dropWhile_cons, hcond]
    simp [← hrev]

theorem natToDigits_no_crlf (n : Nat) :
    ∀ b ∈ natToDigits n, b ≠ 10 ∧ b ≠ 13 := by
  intro b hb
  have := natToDigits_all_digits n b hb
  simp only [isDigit, Bool.and_eq_true, decide_eq_true_eq] at this
  omega

theorem getLast?_ne13 : ∀ (c : List Nat), (∀ b ∈ c, b ≠ 13) → c.getLast? ≠ some 13
  | [], _ => by simp
  | [a], h => by
    have : a ≠ 13 := h a (by simp)
    simp [List.getLast?, this]
  | a :: b :: t, h => by
    rw [List.getLast?_cons_cons]
    exact getLast?_ne13 (b :: t) (fun x hx => h x (by simp at hx ⊢; tauto))

theorem pyRead_bulk (s rest : List Nat) :
    pyRead ((s.length : Int) + 2) (s ++ 13 :: 10 :: rest) = (s ++ [13, 10], rest) := by
  simp only [pyRead]
  rw [if_neg (by omega)]
  have htn : ((s.length : Int) + 2).toNat = s.length + 2 := by omega
  rw [htn]
  have ht : (s ++ 13 :: 10 :: rest).take (s.length + 2) = s ++ [13, 10] := by
    have : (13 : Nat) :: 10 :: rest = [13, 10] ++ rest := rfl
    rw [this, show s ++ ([13, 10] ++ rest) = (s ++ [13, 10]) ++ rest by simp,
      show s.length + 2 = (s ++ [13, 10]).length by simp, List.take_left]
  have hd : (s ++ 13 :: 10 :: rest).drop (s.length + 2) = rest := by
    rw [List.drop_append 2]
    rfl
  rw [ht, hd]

theorem dropTail2_append (s : List Nat) : dropTail2 (s ++ [13, 10]) = s := by
  simp only [dropTail2, List.length_append]
  rw [show s.length + [13, 10].length - 2 = s.length by simp, List.take_left]

/-! ## Well-formedness for the round-trip law, and fuel accounting -/

mutual
/-- Values whose encoding decodes back to an equal value: no raw `bytes`
node (the decoder returns the payload as text), error messages containing no
LF and not ending in CR (they are framed by a bare CRLF line), and dicts
with hashable, pairwise-distinct keys (as every Python dict value has). -/
def wfV : Val → Bool
  | .null => true
  | .int _ => true
  | .str _ => true
  | .bytes _ => false
  | .err m => m.all (fun b => !(b == 10)) && !(m.getLast? == some 13)
  | .list vs => wfL vs
  | .dict ps => keysDistinct ps && keysHashable ps && wfP ps

def wfL : ValList → Bool
  | .nil => true
  | .cons v t => wfV v && wfL t

def wfP : PairList → Bool
  | .nil => true
  | .cons k v t => wfV k && wfV v && wfP t
end

mutual
/-- Nesting depth of a value plus one: a lower bound on the decoder fuel
that suffices to decode its encoding. -/
def needV : Val → Nat
  | .list vs => needL vs + 1
  | .dict ps => needP ps + 1
  | _ => 1

def needL : ValList → Nat
  | .nil => 0
  | .cons v t => max (needV v) (needL t)

def needP : PairList → Nat
  | .nil => 0
  | .cons k v t => max (needV k) (max (needV v) (needP t))
end

theorem pairUpV_flattenPairs : ∀ ps : PairList, pairUpV (flattenPairs ps) = ps
  | .nil => rfl
  | .cons k v t => by
    simp only [flattenPairs, pairUpV]
    rw [pairUpV_flattenPairs t]

theorem PairList.append_nil : ∀ p : PairList, p.append .nil = p
  | .nil => rfl
  | .cons k v t => by
    simp only [PairList.append]
    rw [PairList.append_nil t]

theorem PairList.append_assoc : ∀ a b c : PairList,
    (a.append b).append c = a.append (b.append c)
  | .nil, _, _ => rfl
  | .cons k v t, b, c => by
    simp only [PairList.append]
    rw [PairList.append_assoc t b c]

theorem pyInsert_not_contains : ∀ (acc : PairList) (k v : Val),
    containsKey acc k = false → pyInsert acc k v = acc.append (.cons k v .nil)
  | .nil, k, v, _ => rfl
  | .cons k0 v0 t, k, v, h => by
    simp only [containsKey, pyLookup] at h
    by_cases hk : k0 = k
    · rw [if_pos hk] at h
      simp at h
    · rw [if_neg hk] at h
      simp only [pyInsert, if_neg hk, PairList.append]
      rw [pyInsert_not_contains t k v h]

theorem containsKey_append : ∀ (a b : PairList) (key : Val),
    containsKey (a.append b) key = (containsKey a key || containsKey b key)
  | .nil, b, key => by simp [PairList.append, containsKey, pyLookup]
  | .cons k0 v0 t, b, key => by
    simp only [PairList.append, containsKey, pyLookup]
    by_cases hk : k0 = key
    · simp [if_pos hk]
    · simp only [if_neg hk]
      simpa [containsKey] using containsKey_append t b key

theorem pyDictAux_no_dups : ∀ (ps acc : PairList),
    keysDistinct ps = true →
    (∀ key, containsKey ps key = true → containsKey acc key = false) →
    pyDictAux acc ps = acc.append ps
  | .nil, acc, _, _ => by
    rw [show pyDictAux acc .nil = acc from rfl, PairList.append_nil]
  | .cons k v t, acc, hd, hdisj => by
    simp only [keysDistinct, Bool.and_eq_true] at hd
    obtain ⟨hnk, hdt⟩ := hd
    have hacck : containsKey acc k = false := by
      apply hdisj
      simp [containsKey, pyLookup]
    have hdisj2 : ∀ key, containsKey t key = true →
        containsKey (pyInsert acc k v) key = false := by
      intro key hkey
      rw [pyInsert_not_contains acc k v hacck, containsKey_append]
      have h1 : containsKey acc key = false := by
        apply hdisj
        simp only [containsKey, pyLookup]
        by_cases hkk : k = key
        · simp [if_pos hkk]
        · simp only [if_neg hkk]
          exact hkey
      have h2 : containsKey (PairList.cons k v .nil) key = false := by
        simp only [containsKey, pyLookup]
        by_cases hkk : k = key
        · subst hkk
          rw [hkey] at hnk
          simp at hnk
        · simp [if_neg hkk]
      rw [h1, h2]
      rfl
    simp only [pyDictAux]
    rw [pyDictAux_no_dups t (pyInsert acc k v) hdt hdisj2,
      pyInsert_not_contains acc k v hacck, PairList.append_assoc]
    rfl

theorem pyDictOfPairs_self (ps : PairList) (hd : keysDistinct ps = true) :
    pyDictOfPairs ps = ps := by
  rw [pyDictOfPairs, pyDictAux_no_dups ps .nil hd (fun key _ => rfl)]
  rfl

/-! ## The round-trip law -/

mutual
theorem hr_enc : ∀ (v : Val), wfV v = true → ∀ (fuel : Nat), needV v ≤ fuel →
    ∀ (rest : List Nat), handle_request fuel (encodeVal v ++ rest) = .ok (v, rest)
  | .null, _, fuel, hf, rest => by
    cases fuel with
    | zero => simp [needV] at hf
    | succ f => rfl
  | .bytes b, hw, fuel, hf, rest => by
    simp [wfV] at hw
  | .int n, _, fuel, hf, rest => by
    cases fuel with
    | zero => simp [needV] at hf
    | succ f =>
      have h10 : ∀ b ∈ intToDigits n, b ≠ 10 := fun b hb => (intToDigits_no_crlf n b hb).1
      have h13 : (intToDigits n).getLast? ≠ some 13 :=
        getLast?_ne13 _ (fun b hb => (intToDigits_no_crlf n b hb).2)
      have hsh : encodeVal (.int n) ++ rest = 58 :: (intToDigits n ++ 13 :: 10 :: rest) := by
        simp [encodeVal]
      rw [hsh]
      have hrl := readline_append (intToDigits n) rest h10
      have hrs := rstripCRLF_append (intToDigits n) h10 h13
      simp [handle_request, hrl, hrs, parseIntBytes_intToDigits]
  | .str s, _, fuel, hf, rest => by
    cases fuel with
    | zero => simp [needV] at hf
    | succ f =>
      have h10 : ∀ b ∈ natToDigits s.length, b ≠ 10 :=
        fun b hb => (natToDigits_no_crlf s.length b hb).1
      have h13 : (natToDigits s.length).getLast? ≠ some 13 :=
        getLast?_ne13 _ (fun b hb => (natToDigits_no_crlf s.length b hb).2)
      have hsh : encodeVal (.str s) ++ rest
          = 36 :: (natToDigits s.length ++ 13 :: 10 :: (s ++ 13 :: 10 :: rest)) := by
        simp [encodeVal]
      rw [hsh]
      have hrl := readline_append (natToDigits s.length) (s ++ 13 :: 10 :: rest) h10
      have hrs := rstripCRLF_append (natToDigits s.length) h10 h13
      have hne : ¬((s.length : Int) = -1) := by omega
      simp [handle_request, hrl, hrs, parseIntBytes_natToDigits, hne, pyRead_bulk,
        dropTail2_append]
  | .err m, hw, fuel, hf, rest => by
    cases fuel with
    | zero => simp [needV] at hf
    | succ f =>
      simp only [wfV, Bool.and_eq_true] at hw
      obtain ⟨h10', h13'⟩ := hw
      have h10 : ∀ b ∈ m, b ≠ 10 := by
        intro b hb
        have := List.all_eq_true.mp h10' b hb
        simpa using this
      have h13 : m.getLast? ≠ some 13 := by
        intro hc
        rw [hc] at h13'
        simp at h13'
      have hsh : encodeVal (.err m) ++ rest = 45 :: (m ++ 13 :: 10 :: rest) := by
        simp [encodeVal]
      rw [hsh]
      have hrl := readline_append m rest h10
      have hrs := rstripCRLF_append m h10 h13
      simp [handle_request, hrl, hrs]
  | .list vs, hw, fuel, hf, rest => by
    cases fuel with
    | zero => simp [needV] at hf
    | succ f =>
      have hwl : wfL vs = true := by simpa [wfV] using hw
      have hfl : needL vs ≤ f := by
        simp only [needV] at hf
        omega
      have h10 : ∀ b ∈ natToDigits vs.length, b ≠ 10 :=
        fun b hb => (natToDigits_no_crlf vs.length b hb).1
      have h13 : (natToDigits vs.length).getLast? ≠ some 13 :=
        getLast?_ne13 _ (fun b hb => (natToDigits_no_crlf vs.length b hb).2)
      have hsh : encodeVal (.list vs) ++ rest
          = 42 :: (natToDigits vs.length ++ 13 :: 10 :: (encodeList vs ++ rest)) := by
        simp [encodeVal]
      rw [hsh]
      have hrl := readline_append (natToDigits vs.length) (encodeList vs ++ rest) h10
      have hrs := rstripCRLF_append (natToDigits vs.length) h10 h13
      have hdec := decN_enc vs hwl f hfl rest
      simp [handle_request, hrl, hrs, parseIntBytes_natToDigits, Int.toNat_natCast, hdec]
  | .dict ps, hw, fuel, hf, rest => by
    cases fuel with
    | zero => simp [needV] at hf
    | succ f =>
      simp only [wfV, Bool.and_eq_true] at hw
      obtain ⟨⟨hdist, hhash⟩, hwp⟩ := hw
      have hfp : needP ps ≤ f := by
        simp only [needV] at hf
        omega
      have h10 : ∀ b ∈ natToDigits ps.length, b ≠ 10 :=
        fun b hb => (natToDigits_no_crlf ps.length b hb).1
      have h13 : (natToDigits ps.length).getLast? ≠ some 13 :=
        getLast?_ne13 _ (fun b hb => (natToDigits_no_crlf ps.length b hb).2)
      have hsh : encodeVal (.dict ps) ++ rest
          = 37 :: (natToDigits ps.length ++ 13 :: 10 :: (encodePairs ps ++ rest)) := by
        simp [encodeVal]
      rw [hsh]
      have hrl := readline_append (natToDigits ps.length) (encodePairs ps ++ rest) h10
      have hrs := rstripCRLF_append (natToDigits ps.length) h10 h13
      have hdec := decP_enc ps hwp f hfp rest
      simp [handle_request, hrl, hrs, parseIntBytes_natToDigits, Int.toNat_natCast, hdec,
        pairUpV_flattenPairs, hhash, pyDictOfPairs_self ps hdist]

theorem decN_enc : ∀ (vs : ValList), wfL vs = true → ∀ (fuel : Nat), needL vs ≤ fuel →
    ∀ (rest : List Nat),
    decodeN (handle_request fuel) vs.length (encodeList vs ++ rest) = .ok (vs, rest)
  | .nil, _, fuel, _, rest => rfl
  | .cons v t, hw, fuel, hf, rest => by
    simp only [wfL, Bool.and_eq_true] at hw
    obtain ⟨hwv, hwt⟩ := hw
    simp only [needL, Nat.max_le] at hf
    obtain ⟨hfv, hft⟩ := hf
    show decodeN (handle_request fuel) (t.length + 1) ((encodeVal v ++ encodeList t) ++ rest)
        = .ok (.cons v t, rest)
    rw [List.append_assoc]
    simp [decodeN, hr_enc v hwv fuel hfv (encodeList t ++ rest), decN_enc t hwt fuel hft rest]

theorem decP_enc : ∀ (ps : PairList), wfP ps = true → ∀ (fuel : Nat), needP ps ≤ fuel →
    ∀ (rest : List Nat),
    decodeN (handle_request fuel) (ps.length * 2) (encodePairs ps ++ rest)
      = .ok (flattenPairs ps, rest)
  | .nil, _, fuel, _, rest => rfl
  | .cons k v t, hw, fuel, hf, rest => by
    simp only [wfP, Bool.and_eq_true] at hw
    obtain ⟨⟨hwk, hwv⟩, hwt⟩ := hw
    simp only [needP, Nat.max_le] at hf
    obtain ⟨hfk, hfv, hft⟩ := hf
    have hcount : (PairList.cons k v t).length * 2 = t.length * 2 + 1 + 1 := by
      simp [PairList.length]
      ring
    rw [hcount]
    have hsh : encodePairs (.cons k v t) ++ rest
        = encodeVal k ++ (encodeVal v ++ (encodePairs t ++ rest)) := by
      simp [encodePairs]
    rw [hsh]
    simp [decodeN, hr_enc k hwk fuel hfk (encodeVal v ++ (encodePairs t ++ rest)),
      hr_enc v hwv fuel hfv (encodePairs t ++ rest), decP_enc t hwt fuel hft rest,
      flattenPairs]
end

mutual
theorem needV_le_encLen : ∀ v : Val, needV v ≤ (encodeVal v).length
  | .null => by simp [needV, encodeVal]
  | .int n => by simp [needV, encodeVal]
  | .str s => by simp [needV, encodeVal]
  | .bytes b => by simp [needV, encodeVal]
  | .err m => by simp [needV, encodeVal]
  | .list vs => by
    have := needL_le_encLen vs
    simp only [needV, encodeVal, List.length_cons, List.length_append]
    omega
  | .dict ps => by
    have := needP_le_encLen ps
    simp only [needV, encodeVal, List.length_cons, List.length_append]
    omega

theorem needL_le_encLen : ∀ vs : ValList, needL vs ≤ (encodeList vs).length
  | .nil => by simp [needL, encodeList]
  | .cons v t => by
    have h1 := needV_le_encLen v
    have h2 := needL_le_encLen t
    simp only [needL, encodeList, List.length_append, Nat.max_le]
    omega

theorem needP_le_encLen : ∀ ps : PairList, needP ps ≤ (encodePairs ps).length
  | .nil => by simp [needP, encodePairs]
  | .cons k v t => by
    have h1 := needV_le_encLen k
    have h2 := needV_le_encLen v
    have h3 := needP_le_encLen t
    simp only [needP, encodePairs, List.length_append, Nat.max_le]
    omega
end

/-- Round-trip through the stream decoder: decoding the encoder's output
yields the value back and consumes exactly the encoded bytes, for every
well-formed value. -/
theorem decode_encodeVal (v : Val) (hw : wfV v = true) (rest : List Nat) :
    decode (encodeVal v ++ rest) = .ok (v, rest) := by
  have h1 := needV_le_encLen v
  show handle_request ((encodeVal v ++ rest).length + 1) (encodeVal v ++ rest) = .ok (v, rest)
  apply hr_enc v hw _ _ rest
  simp only [List.length_append]
  omega

/-! ## Lemmas about the store operations and dispatch -/

theorem upperByte_idem (b : Nat) : upperByte (upperByte b) = upperByte b := by
  simp only [upperByte]
  split
  · rename_i h
    simp only [Bool.and_eq_true, decide_eq_true_eq] at h
    rw [if_neg]
    simp only [Bool.and_eq_true, decide_eq_true_eq, not_and]
    omega
  · rfl

theorem upperB_idem : ∀ s : List Nat, upperB (upperB s) = upperB s
  | [] => rfl
  | b :: t => by
    have ht := upperB_idem t
    simp only [upperB, List.map_cons, List.map_map] at ht ⊢
    rw [upperByte_idem b]
    have : List.map (upperByte ∘ upperByte) t = List.map upperByte t := by
      simpa [List.map_map] using ht
    rw [this]

theorem pyLookup_pyInsert : ∀ (acc : PairList) (k v key : Val),
    pyLookup (pyInsert acc k v) key = if k = key then some v else pyLookup acc key
  | .nil, k, v, key => by simp [pyInsert, pyLookup]
  | .cons k1 v1 t, k, v, key => by
    by_cases h1 : k1 = k
    · subst h1
      simp only [pyInsert, if_pos rfl]
      by_cases h2 : k1 = key
      · subst h2
        simp [pyLookup]
      · simp [pyLookup, h2, fun hc : k1 = key => h2 hc]
    · simp only [pyInsert, if_neg h1, pyLookup]
      by_cases h2 : k1 = key
      · subst h2
        have hk : ¬(k = k1) := fun hc => h1 hc.symm
        simp [if_pos rfl, if_neg hk]
      · rw [if_neg h2, pyLookup_pyInsert t k v key]
        by_cases h3 : k = key
        · simp [h3]
        · simp [h3, h2]

theorem lookup_eq_none_of_not_contains (t : PairList) (k : Val)
    (h : containsKey t k = false) : pyLookup t k = none := by
  cases hl : pyLookup t k with
  | none => rfl
  | some v =>
    unfold containsKey at h
    rw [hl] at h
    simp at h

theorem pyPop_fst : ∀ (kv : PairList) (k : Val), (pyPop kv k).1 = pyLookup kv k
  | .nil, _ => rfl
  | .cons k0 v0 t, k => by
    by_cases h : k0 = k
    · simp [pyPop, pyLookup, h]
    · simp only [pyPop, pyLookup, if_neg h]
      exact pyPop_fst t k

theorem pyLookup_pyPop : ∀ (kv : PairList) (k : Val), keysDistinct kv = true →
    pyLookup (pyPop kv k).2 k = none
  | .nil, _, _ => rfl
  | .cons k0 v0 t, k, hd => by
    simp only [keysDistinct, Bool.and_eq_true] at hd
    obtain ⟨hnk, hdt⟩ := hd
    by_cases h : k0 = k
    · subst h
      simp only [pyPop, if_pos rfl]
      exact lookup_eq_none_of_not_contains t k0 (by simpa using hnk)
    · simp only [pyPop, if_neg h]
      simp only [pyLookup, if_neg h]
      exact pyLookup_pyPop t k hdt

theorem msetLoop_hashable : ∀ (ps : PairList) (kv : Store), keysHashable ps = true →
    msetLoop kv ps = .ok (pyDictAux kv ps)
  | .nil, kv, _ => rfl
  | .cons k v t, kv, h => by
    simp only [keysHashable, Bool.and_eq_true] at h
    simp only [msetLoop, pyDictAux, h.1, if_true]
    exact msetLoop_hashable t (pyInsert kv k v) h.2

theorem pairUpV_length : ∀ es : ValList, (pairUpV es).length = es.length / 2
  | .nil => rfl
  | .cons _ .nil => by simp [pairUpV, PairList.length, ValList.length]
  | .cons a (.cons b t) => by
    simp only [pairUpV, PairList.length, ValList.length]
    rw [pairUpV_length t]
    omega

/-- Model of Python `items[:-1]` on a value list (drop the trailing
element). -/
def dropLastV : ValList → ValList
  | .nil => .nil
  | .cons _ .nil => .nil
  | .cons a t => .cons a (dropLastV t)

theorem pairUpV_dropLastV : ∀ es : ValList, es.length % 2 = 1 →
    pairUpV es = pairUpV (dropLastV es)
  | .nil, h => by simp [ValList.length] at h
  | .cons _ .nil, _ => rfl
  | .cons a (.cons b t), h => by
    have ht : t.length % 2 = 1 := by
      simp only [ValList.length] at h
      omega
    cases t with
    | nil => simp [ValList.length] at ht
    | cons c u =>
      simp only [pairUpV, dropLastV]
      rw [pairUpV_dropLastV (.cons c u) ht]

theorem decodeN_length (step : List Nat → Except DErr (Val × List Nat)) :
    ∀ (n : Nat) (s : List Nat) (es : ValList) (r : List Nat),
    decodeN step n s = .ok (es, r) → es.length = n := by
  intro n
  induction n with
  | zero =>
    intro s es r h
    simp only [decodeN] at h
    cases h
    rfl
  | succ m ih =>
    intro s es r h
    simp only [decodeN] at h
    cases hs : step s with
    | error e => rw [hs] at h; simp at h
    | ok p =>
      obtain ⟨v, s'⟩ := p
      rw [hs] at h
      simp only at h
      cases hd : decodeN step m s' with
      | error e => rw [hd] at h; simp at h
      | ok q =>
        obtain ⟨vs, s''⟩ := q
        rw [hd] at h
        simp only at h
        have hlen := ih s' vs s'' hd
        cases h
        simp only [ValList.length]
        omega

theorem pyLookup_append : ∀ (a b : PairList) (key : Val),
    pyLookup (a.append b) key = (pyLookup a key).or (pyLookup b key)
  | .nil, b, key => rfl
  | .cons k0 v0 t, b, key => by
    by_cases h : k0 = key
    · simp [PairList.append, pyLookup, h]
    · simp only [PairList.append, pyLookup, if_neg h]
      exact pyLookup_append t b key

theorem pyLookup_reverseP_cons (k v : Val) (t : PairList) (key : Val) :
    pyLookup (reverseP (.cons k v t)) key
      = (pyLookup (reverseP t) key).or (if k = key then some v else none) := by
  simp only [reverseP, pyLookup_append]
  rfl

theorem pyLookup_pyDictAux : ∀ (ps acc : PairList) (key : Val),
    pyLookup (pyDictAux acc ps) key = (pyLookup (reverseP ps) key).or (pyLookup acc key)
  | .nil, acc, key => rfl
  | .cons k v t, acc, key => by
    simp only [pyDictAux]
    rw [pyLookup_pyDictAux t (pyInsert acc k v) key, pyLookup_reverseP_cons,
      pyLookup_pyInsert]
    cases pyLookup (reverseP t) key with
    | some w => rfl
    | none =>
      by_cases h : k = key
      · simp [h, Option.or]
      · simp [h, Option.or]

/-- In `dict(pairs)` every key is bound to the value of its last occurrence
(lookup in the reversed pair list). -/
theorem pyLookup_pyDictOfPairs (ps : PairList) (key : Val) :
    pyLookup (pyDictOfPairs ps) key = pyLookup (reverseP ps) key := by
  rw [pyDictOfPairs, pyLookup_pyDictAux]
  cases pyLookup (reverseP ps) key <;> rfl

theorem pyInsert_length_le : ∀ (acc : PairList) (k v : Val),
    (pyInsert acc k v).length ≤ acc.length + 1
  | .nil, _, _ => by simp [pyInsert, PairList.length]
  | .cons k0 v0 t, k, v => by
    by_cases h : k0 = k
    · simp [pyInsert, h, PairList.length]
    · simp only [pyInsert, if_neg h, PairList.length]
      have := pyInsert_length_le t k v
      omega

theorem pyInsert_length_contains : ∀ (acc : PairList) (k v : Val),
    containsKey acc k = true → (pyInsert acc k v).length = acc.length
  | .nil, k, v, h => by simp [containsKey, pyLookup] at h
  | .cons k0 v0 t, k, v, h => by
    by_cases hk : k0 = k
    · simp [pyInsert, hk, PairList.length]
    · unfold containsKey pyLookup at h
      rw [if_neg hk] at h
      simp only [pyInsert, if_neg hk, PairList.length]
      rw [pyInsert_length_contains t k v h]

theorem containsKey_pyInsert (acc : PairList) (k v key : Val) :
    containsKey (pyInsert acc k v) key = (decide (k = key) || containsKey acc key) := by
  simp only [containsKey, pyLookup_pyInsert]
  by_cases h : k = key
  · simp [h]
  · simp [h]

theorem pyDictAux_length_le : ∀ (ps acc : PairList),
    (pyDictAux acc ps).length ≤ acc.length + ps.length
  | .nil, acc => by simp [pyDictAux, PairList.length]
  | .cons k v t, acc => by
    simp only [pyDictAux, PairList.length]
    have h1 := pyDictAux_length_le t (pyInsert acc k v)
    have h2 := pyInsert_length_le acc k v
    omega

theorem pyDictAux_length_lt_of_contains : ∀ (ps acc : PairList) (key : Val),
    containsKey ps key = true → containsKey acc key = true →
    (pyDictAux acc ps).length < acc.length + ps.length
  | .nil, acc, key, hps, _ => by simp [containsKey, pyLookup] at hps
  | .cons k v t, acc, key, hps, hacc => by
    simp only [pyDictAux, PairList.length]
    by_cases hck : containsKey acc k = true
    · have h1 := pyDictAux_length_le t (pyInsert acc k v)
      have h2 := pyInsert_length_contains acc k v hck
      omega
    · have hkk : ¬(k = key) := by
        intro hc
        subst hc
        exact hck hacc
      have hkt : containsKey t key = true := by
        unfold containsKey pyLookup at hps
        rw [if_neg hkk] at hps
        exact hps
      have hacc2 : containsKey (pyInsert acc k v) key = true := by
        rw [containsKey_pyInsert, hacc]
        simp
      have h1 := pyDictAux_length_lt_of_contains t (pyInsert acc k v) key hkt hacc2
      have h2 := pyInsert_length_le acc k v
      omega

theorem pyDictAux_length_lt_of_dup : ∀ (ps acc : PairList),
    keysDistinct ps = false → (pyDictAux acc ps).length < acc.length + ps.length
  | .nil, acc, hd => by simp [keysDistinct] at hd
  | .cons k v t, acc, hd => by
    simp only [pyDictAux, PairList.length]
    have h2 := pyInsert_length_le acc k v
    by_cases hck : containsKey t k = true
    · have hacc2 : containsKey (pyInsert acc k v) k = true := by
        rw [containsKey_pyInsert]
        simp
      have h1 := pyDictAux_length_lt_of_contains t (pyInsert acc k v) k hck hacc2
      omega
    · have hdt : keysDistinct t = false := by
        simp only [keysDistinct, Bool.and_eq_false_iff] at hd
        rcases hd with hd | hd
        · simp only [Bool.not_eq_eq_eq_not, Bool.not_false] at hd
          exact absurd hd hck
        · exact hd
      have h1 := pyDictAux_length_lt_of_dup t (pyInsert acc k v) hdt
      omega

/-- A duplicate key makes `dict(pairs)` strictly smaller than the pair
count. -/
theorem pyDictOfPairs_length_lt (ps : PairList) (hd : keysDistinct ps = false) :
    (pyDictOfPairs ps).length < ps.length := by
  have := pyDictAux_length_lt_of_dup ps .nil hd
  simpa [pyDictOfPairs, PairList.length] using this

theorem pyPop_snd_of_absent : ∀ (kv : PairList) (k : Val),
    pyLookup kv k = none → (pyPop kv k).2 = kv
  | .nil, _, _ => rfl
  | .cons k0 v0 t, k, h => by
    simp only [pyLookup] at h
    by_cases hk : k0 = k
    · rw [if_pos hk] at h
      simp at h
    · rw [if_neg hk] at h
      simp only [pyPop, if_neg hk]
      rw [pyPop_snd_of_absent t k h]

theorem cmdGet_cmdErr (kv : Store) (k : Val) (msg : List Nat) (st : Store)
    (h : cmdGet kv k = (.cmdErr msg, st)) : st = kv := by
  simp only [cmdGet] at h
  split at h <;> simp at h

theorem cmdSet_cmdErr (kv : Store) (k v : Val) (msg : List Nat) (st : Store)
    (h : cmdSet kv k v = (.cmdErr msg, st)) : st = kv := by
  simp only [cmdSet] at h
  split at h <;> simp at h

theorem cmdDelete_cmdErr (kv : Store) (k : Val) (msg : List Nat) (st : Store)
    (h : cmdDelete kv k = (.cmdErr msg, st)) : st = kv := by
  rcases hp : pyPop kv k with ⟨r, kv2⟩
  simp only [cmdDelete, hp] at h
  split at h <;> simp at h

theorem cmdFlush_cmdErr (kv : Store) (msg : List Nat) (st : Store)
    (h : cmdFlush kv = (.cmdErr msg, st)) : st = kv := by
  simp only [cmdFlush] at h
  simp at h

theorem cmdMget_cmdErr (kv : Store) (keys : ValList) (msg : List Nat) (st : Store)
    (h : cmdMget kv keys = (.cmdErr msg, st)) : st = kv := by
  simp only [cmdMget] at h
  cases hm : mgetLoop kv keys with
  | none => rw [hm] at h; simp at h
  | some vs => rw [hm] at h; simp at h

theorem cmdMset_cmdErr (kv : Store) (items : ValList) (msg : List Nat) (st : Store)
    (h : cmdMset kv items = (.cmdErr msg, st)) : st = kv := by
  simp only [cmdMset] at h
  cases hm : msetLoop kv (pairUpV items) with
  | error kvp => rw [hm] at h; simp at h
  | ok kv2 => rw [hm] at h; simp at h

/-- Whenever dispatch raises a `CommandError` (not a list, empty list, or
unrecognized command name), the store is returned unchanged. -/
theorem get_response_cmdErr_store (kv : Store) (data : Val) (msg : List Nat) (st : Store)
    (h : get_response kv data = (.cmdErr msg, st)) : st = kv := by
  cases data with
  | list l =>
    cases l with
    | nil =>
      simp only [get_response, Prod.mk.injEq] at h
      exact h.2.symm
    | cons hd args =>
      cases hd with
      | str s2 =>
        simp only [get_response] at h
        split at h
        · split at h
          · exact cmdGet_cmdErr _ _ _ _ h
          · simp at h
        · split at h
          · split at h
            · exact cmdSet_cmdErr _ _ _ _ _ h
            · simp at h
          · split at h
            · split at h
              · exact cmdDelete_cmdErr _ _ _ _ h
              · simp at h
            · split at h
              · split at h
                · exact cmdFlush_cmdErr _ _ _ h
                · simp at h
              · split at h
                · exact cmdMget_cmdErr _ _ _ _ h
                · split at h
                  · exact cmdMset_cmdErr _ _ _ _ h
                  · simp only [Prod.mk.injEq] at h
                    exact h.2.symm
      | null => simp [get_response] at h
      | int n => simp [get_response] at h
      | bytes b =>
        simp only [get_response, Prod.mk.injEq] at h
        exact h.2.symm
      | err m => simp [get_response] at h
      | list l2 => simp [get_response] at h
      | dict d2 => simp [get_response] at h
  | null =>
    simp only [get_response, Prod.mk.injEq] at h
    exact h.2.symm
  | int n =>
    simp only [get_response, Prod.mk.injEq] at h
    exact h.2.symm
  | str s2 =>
    simp only [get_response, Prod.mk.injEq] at h
    exact h.2.symm
  | bytes b =>
    simp only [get_response, Prod.mk.injEq] at h
    exact h.2.symm
  | err m =>
    simp only [get_response, Prod.mk.injEq] at h
    exact h.2.symm
  | dict d =>
    simp only [get_response, Prod.mk.injEq] at h
    exact h.2.symm

/-! ## Claim theorems -/

/-- Claim C1, counterexample: the claim fails for the raw-bytes `BulkString`
variant.  Encoding the Python bytes value `b"h"` and decoding the result
yields the text string `"h"`, which is a different value (Python
`b"h" == "h"` is false): the decoder always returns bulk-string payloads as
decoded text. -/
theorem C1_bytes_counterexample :
    decode (encodeVal (.bytes [104])) = .ok (.str [104], []) ∧
      Val.str [104] ≠ Val.bytes [104] :=
  ⟨rfl, fun h => Val.noConfusion h⟩

/-- Claim C1, amended: for every value with no raw-`bytes` node, whose error
messages contain no LF and do not end in CR, and whose dicts have hashable
pairwise-distinct keys, decoding the bytes produced by encoding the value
yields an equal value, and the decoder consumes exactly the bytes the
encoder wrote (an arbitrary suffix `rest` is left untouched). -/
theorem C1_roundtrip (v : Val) (hw : wfV v = true) (rest : List Nat) :
    decode (encodeVal v ++ rest) = .ok (v, rest) :=
  decode_encodeVal v hw rest

theorem C1_roundtrip_witness :
    wfV (Val.dict (.cons (.str [107]) (.int (-5))
        (.cons .null (.list (.cons (.str [120]) (.cons (.err [111, 111, 112, 115]) .nil)))
          .nil))) = true ∧
    decode (encodeVal (Val.dict (.cons (.str [107]) (.int (-5))
        (.cons .null (.list (.cons (.str [120]) (.cons (.err [111, 111, 112, 115]) .nil)))
          .nil))) ++ [63])
      = .ok (Val.dict (.cons (.str [107]) (.int (-5))
          (.cons .null (.list (.cons (.str [120]) (.cons (.err [111, 111, 112, 115]) .nil)))
            .nil)), [63]) :=
  ⟨rfl, C1_roundtrip (Val.dict (.cons (.str [107]) (.int (-5))
      (.cons .null (.list (.cons (.str [120]) (.cons (.err [111, 111, 112, 115]) .nil)))
        .nil))) rfl [63]⟩

/-- Claim C2, counterexample: the request `["GET"]` (a recognized command
with the wrong argument count) is not answered with an `ErrorValue`; the
call raises an uncaught `TypeError`, so the dispatch outcome is fatal and
the connection closes with no response. -/
theorem C2_arity_counterexample :
    get_response .nil (.list (.cons (.str GETb) .nil)) = (.fatal, .nil) ∧
    connStep .nil (encodeVal (.list (.cons (.str GETb) .nil))) = (.closedCrash, .nil) :=
  ⟨rfl, rfl⟩

/-- Claim C2, amended: a recognized command called with the wrong number of
arguments (GET or DELETE without exactly one, SET without exactly two, FLUSH
with any) raises an uncaught `TypeError` at the call, not a `CommandError`:
no `ErrorValue` is sent and the connection transitions to closed.  Only a
non-list request, an empty request, or an unrecognized command name is
reported as an `ErrorValue` with the connection kept open. -/
theorem C2_arity_fatal (kv : Store) (args : ValList) :
    (args.length ≠ 1 →
      get_response kv (.list (.cons (.str GETb) args)) = (.fatal, kv) ∧
      get_response kv (.list (.cons (.str DELETEb) args)) = (.fatal, kv)) ∧
    (args.length ≠ 2 → get_response kv (.list (.cons (.str SETb) args)) = (.fatal, kv)) ∧
    (args.length ≠ 0 → get_response kv (.list (.cons (.str FLUSHb) args)) = (.fatal, kv)) ∧
    ∀ s data rest, decode s = .ok (data, rest) → get_response kv data = (.fatal, kv) →
      connStep kv s = (.closedCrash, kv) := by
  refine ⟨?_, ?_, ?_, ?_⟩
  · intro h1
    cases args with
    | nil => exact ⟨rfl, rfl⟩
    | cons a t =>
      cases t with
      | nil => simp [ValList.length] at h1
      | cons b u => exact ⟨rfl, rfl⟩
  · intro h2
    cases args with
    | nil => rfl
    | cons a t =>
      cases t with
      | nil => rfl
      | cons b u =>
        cases u with
        | nil => simp [ValList.length] at h2
        | cons c w => rfl
  · intro h3
    cases args with
    | nil => simp [ValList.length] at h3
    | cons a t => rfl
  · intro s data rest hdec hresp
    simp only [connStep, hdec, hresp]

theorem C2_arity_fatal_witness :
    ValList.nil.length ≠ 1 ∧
    get_response .nil (.list (.cons (.str GETb) .nil)) = (.fatal, .nil) ∧
    get_response .nil (.list (.cons (.str DELETEb) .nil)) = (.fatal, .nil) := by
  have h := (C2_arity_fatal .nil .nil).1 (by decide)
  exact ⟨by decide, h.1, h.2⟩

/-- Claim C3, counterexample: with the store holding key `"k"` bound to the
value `Null` (reachable via `SET k` with a `$-1` argument), the key is
present, yet DELETE answers `Integer 0` because `pop(key, None) is not
None` tests the popped value rather than the key's presence. -/
theorem C3_null_value_counterexample :
    pyLookup (.cons (.str [107]) .null .nil) (.str [107]) = some .null ∧
    get_response (.cons (.str [107]) .null .nil)
        (.list (.cons (.str DELETEb) (.cons (.str [107]) .nil)))
      = (.ok (.int 0), .nil) :=
  ⟨rfl, rfl⟩

/-- Claim C3, amended: for every store with distinct keys and every hashable
key, DELETE answers `Integer 1` exactly when the key was present with a
non-`Null` value; a key present with value `Null` answers `Integer 0`
(though its pair is still removed), and an absent key answers `Integer 0`
with the store unchanged.  In every case the key afterwards reads as
`Null`. -/
theorem C3_delete (kv : Store) (k : Val) (hk : hashable k = true)
    (hd : keysDistinct kv = true) :
    (∀ v, pyLookup kv k = some v → v ≠ .null →
      get_response kv (.list (.cons (.str DELETEb) (.cons k .nil)))
        = (.ok (.int 1), (pyPop kv k).2)) ∧
    (pyLookup kv k = some .null →
      get_response kv (.list (.cons (.str DELETEb) (.cons k .nil)))
        = (.ok (.int 0), (pyPop kv k).2)) ∧
    (pyLookup kv k = none →
      get_response kv (.list (.cons (.str DELETEb) (.cons k .nil))) = (.ok (.int 0), kv)) ∧
    pyLookup (pyPop kv k).2 k = none ∧
    get_response (pyPop kv k).2 (.list (.cons (.str GETb) (.cons k .nil)))
      = (.ok .null, (pyPop kv k).2) := by
  have hafter : pyLookup (pyPop kv k).2 k = none := pyLookup_pyPop kv k hd
  refine ⟨?_, ?_, ?_, hafter, ?_⟩
  · intro v hsome hnn
    show cmdDelete kv k = (.ok (.int 1), (pyPop kv k).2)
    rcases hpop : pyPop kv k with ⟨r, kv2⟩
    have hr : r = some v := by
      have hfst := pyPop_fst kv k
      rw [hpop] at hfst
      exact hfst.trans hsome
    subst hr
    simp only [cmdDelete, hk, if_true, hpop]
    simp [hnn]
  · intro hsome
    show cmdDelete kv k = (.ok (.int 0), (pyPop kv k).2)
    rcases hpop : pyPop kv k with ⟨r, kv2⟩
    have hr : r = some .null := by
      have hfst := pyPop_fst kv k
      rw [hpop] at hfst
      exact hfst.trans hsome
    subst hr
    simp only [cmdDelete, hk, if_true, hpop]
  · intro hnone
    show cmdDelete kv k = (.ok (.int 0), kv)
    rcases hpop : pyPop kv k with ⟨r, kv2⟩
    have hr : r = none := by
      have hfst := pyPop_fst kv k
      rw [hpop] at hfst
      exact hfst.trans hnone
    have hkv2 : kv2 = kv := by
      have hsnd := pyPop_snd_of_absent kv k hnone
      rw [hpop] at hsnd
      exact hsnd
    subst hr
    subst hkv2
    simp only [cmdDelete, hk, if_true, hpop]
  · show cmdGet (pyPop kv k).2 k = (.ok .null, (pyPop kv k).2)
    simp only [cmdGet, hk, if_true, hafter]
    rfl

theorem C3_delete_witness :
    hashable (Val.str [107]) = true ∧
    keysDistinct (.cons (.str [107]) (.int 1) .nil) = true ∧
    get_response (.cons (.str [107]) (.int 1) .nil)
        (.list (.cons (.str DELETEb) (.cons (.str [107]) .nil)))
      = (.ok (.int 1), .nil) :=
  ⟨rfl, rfl,
    (C3_delete (.cons (.str [107]) (.int 1) .nil) (.str [107]) rfl rfl).1 (.int 1) rfl
      (fun hcontr => Val.noConfusion hcontr)⟩

/-- Claim C4, confirmed: a stream starting with a nonempty tag byte other
than `+ - : $ * %` decodes to the `CommandError("bad request")`, which is
not caught in the connection loop (only `Disconnect` is): the connection
closes with no response written, and the shared store is unchanged. -/
theorem C4_unknown_tag (kv : Store) (b : Nat) (t : List Nat)
    (h1 : b ≠ 43) (h2 : b ≠ 45) (h3 : b ≠ 58) (h4 : b ≠ 36) (h5 : b ≠ 42) (h6 : b ≠ 37) :
    decode (b :: t) = .error .badRequest ∧ connStep kv (b :: t) = (.closedCrash, kv) := by
  have hdec : decode (b :: t) = .error .badRequest := by
    show handle_request ((b :: t).length + 1) (b :: t) = .error .badRequest
    simp only [List.length_cons]
    simp [handle_request, h1, h2, h3, h4, h5, h6]
  exact ⟨hdec, by simp only [connStep, hdec]⟩

theorem C4_unknown_tag_witness :
    decode [63] = .error .badRequest ∧ connStep .nil [63] = (.closedCrash, .nil) :=
  C4_unknown_tag .nil 63 [] (by decide) (by decide) (by decide) (by decide) (by decide)
    (by decide)

/-- Claim C5, confirmed: MSET with hashable keys sets the
`floor(n/2)` key/value pairs obtained by pairing the arguments in order,
answers `Integer (n / 2)`, and for an odd argument count the trailing
unpaired argument is silently discarded (the pairs coincide with those of
the argument list without its last element). -/
theorem C5_mset (kv : Store) (items : ValList)
    (hk : keysHashable (pairUpV items) = true) :
    get_response kv (.list (.cons (.str MSETb) items))
      = (.ok (.int (items.length / 2)), pyDictAux kv (pairUpV items)) ∧
    (pairUpV items).length = items.length / 2 ∧
    (items.length % 2 = 1 → pairUpV items = pairUpV (dropLastV items)) := by
  refine ⟨?_, pairUpV_length items, pairUpV_dropLastV items⟩
  show cmdMset kv items = _
  simp only [cmdMset, msetLoop_hashable _ _ hk]

theorem C5_mset_witness :
    keysHashable (pairUpV (.cons (.str [97]) (.cons (.int 1) (.cons (.str [98]) .nil))))
      = true ∧
    get_response .nil
        (.list (.cons (.str MSETb) (.cons (.str [97]) (.cons (.int 1) (.cons (.str [98]) .nil)))))
      = (.ok (.int 1), .cons (.str [97]) (.int 1) .nil) :=
  ⟨rfl, (C5_mset .nil (.cons (.str [97]) (.cons (.int 1) (.cons (.str [98]) .nil))) rfl).1⟩

/-- Claim C6, confirmed: FLUSH answers the number of entries the store held
before the call and leaves the store empty; consequently a second
consecutive FLUSH (on the now-empty store) answers `Integer 0`. -/
theorem C6_flush (kv : Store) :
    get_response kv (.list (.cons (.str FLUSHb) .nil))
      = (.ok (.int (kv.length : Int)), .nil) ∧
    get_response .nil (.list (.cons (.str FLUSHb) .nil)) = (.ok (.int 0), .nil) :=
  ⟨rfl, rfl⟩

/-- Claim C7, confirmed: dispatch upper-cases only the first request element
(dispatching any command name exactly as its upper-cased form, so a
lower-case name reaches the same operation), while argument values are
passed to the store operation unmodified: SET stores the given value
verbatim, whatever its case. -/
theorem C7_case_folding (kv : Store) (s : List Nat) (args : ValList) :
    get_response kv (.list (.cons (.str s) args))
      = get_response kv (.list (.cons (.str (upperB s)) args)) ∧
    ∀ k v, hashable k = true →
      get_response kv (.list (.cons (.str SETb) (.cons k (.cons v .nil))))
        = (.ok (.int 1), pyInsert kv k v) ∧
      pyLookup (pyInsert kv k v) k = some v := by
  constructor
  · simp only [get_response, upperB_idem]
  · intro k v hk
    refine ⟨?_, ?_⟩
    · show cmdSet kv k v = (.ok (.int 1), pyInsert kv k v)
      simp [cmdSet, hk]
    · rw [pyLookup_pyInsert]
      simp

theorem C7_case_folding_witness :
    get_response .nil (.list (.cons (.str [103, 101, 116]) (.cons (.str [107]) .nil)))
      = get_response .nil
          (.list (.cons (.str (upperB [103, 101, 116])) (.cons (.str [107]) .nil))) ∧
    hashable (Val.str [107]) = true ∧
    pyLookup (pyInsert .nil (.str [107]) (.str [86])) (.str [107]) = some (.str [86]) :=
  ⟨(C7_case_folding .nil [103, 101, 116] (.cons (.str [107]) .nil)).1, rfl,
    ((C7_case_folding .nil [103, 101, 116] (.cons (.str [107]) .nil)).2
      (.str [107]) (.str [86]) rfl).2⟩

/-- Claim C8, confirmed: GET on an absent hashable key answers `Null`; for
every value, SET answers `Integer 1` and stores the pair, and a subsequent
GET on the same key answers exactly the stored value. -/
theorem C8_get_set (kv : Store) (k : Val) (hk : hashable k = true) :
    (pyLookup kv k = none →
      get_response kv (.list (.cons (.str GETb) (.cons k .nil))) = (.ok .null, kv)) ∧
    ∀ v, get_response kv (.list (.cons (.str SETb) (.cons k (.cons v .nil))))
        = (.ok (.int 1), pyInsert kv k v) ∧
      get_response (pyInsert kv k v) (.list (.cons (.str GETb) (.cons k .nil)))
        = (.ok v, pyInsert kv k v) := by
  constructor
  · intro habs
    show cmdGet kv k = (.ok .null, kv)
    simp only [cmdGet, hk, if_true, habs]
    rfl
  · intro v
    constructor
    · show cmdSet kv k v = (.ok (.int 1), pyInsert kv k v)
      simp [cmdSet, hk]
    · show cmdGet (pyInsert kv k v) k = (.ok v, pyInsert kv k v)
      have hl : pyLookup (pyInsert kv k v) k = some v := by
        rw [pyLookup_pyInsert]
        simp
      simp only [cmdGet, hk, if_true, hl]
      rfl

theorem C8_get_set_witness :
    hashable (Val.str [107]) = true ∧
    get_response .nil (.list (.cons (.str GETb) (.cons (.str [107]) .nil)))
      = (.ok .null, .nil) ∧
    get_response .nil (.list (.cons (.str SETb) (.cons (.str [107]) (.cons (.str [118]) .nil))))
      = (.ok (.int 1), .cons (.str [107]) (.str [118]) .nil) :=
  ⟨rfl, (C8_get_set .nil (.str [107]) rfl).1 rfl,
    ((C8_get_set .nil (.str [107]) rfl).2 (.str [118])).1⟩

/-- Claim C9, confirmed: whenever dispatch raises a `CommandError` (the
request is not a list, is an empty list, or names an unrecognized command),
the store after dispatch is exactly the store before, and the connection
loop answers with a single `Error` frame while continuing on the remaining
input with the store unchanged. -/
theorem C9_cmderr_store (kv st : Store) (data : Val) (msg : List Nat)
    (h : get_response kv data = (.cmdErr msg, st)) :
    st = kv ∧
    ∀ s rest, decode s = .ok (data, rest) →
      connStep kv s = (.reply (encodeVal (.err msg)) rest, kv) := by
  have hst : st = kv := get_response_cmdErr_store kv data msg st h
  subst hst
  refine ⟨rfl, ?_⟩
  intro s rest hdec
  simp only [connStep, hdec, h]

theorem C9_cmderr_store_witness :
    (PairList.nil : Store) = .nil ∧
    ∀ s rest, decode s = .ok (.int 5, rest) →
      connStep .nil s = (.reply (encodeVal (.err msgMustBeList)) rest, .nil) :=
  C9_cmderr_store .nil .nil (.int 5) msgMustBeList rfl

/-- Claim C10, confirmed: a well-formed dict frame with count `n` whose `2n`
elements decode successfully but whose keys contain duplicates decodes to
`dict(zip(...))`, a mapping with strictly fewer than `n` pairs in which
every key is bound to the value of its last occurrence (lookup in the
reversed pair sequence); re-encoding that mapping therefore writes a
strictly smaller count than the original frame. -/
theorem C10_dict_duplicates (fuel n : Nat) (stream rest : List Nat) (es : ValList)
    (hdec : decodeN (handle_request fuel) (n * 2) stream = .ok (es, rest))
    (hhash : keysHashable (pairUpV es) = true)
    (hdup : keysDistinct (pairUpV es) = false) :
    handle_request (fuel + 1) (37 :: (natToDigits n ++ 13 :: 10 :: stream))
      = .ok (.dict (pyDictOfPairs (pairUpV es)), rest) ∧
    (pyDictOfPairs (pairUpV es)).length < n ∧
    ∀ key, pyLookup (pyDictOfPairs (pairUpV es)) key
      = pyLookup (reverseP (pairUpV es)) key := by
  have hlen : es.length = n * 2 := decodeN_length _ _ _ _ _ hdec
  have hplen : (pairUpV es).length = n := by
    rw [pairUpV_length, hlen]
    omega
  refine ⟨?_, ?_, fun key => pyLookup_pyDictOfPairs _ key⟩
  · have h10 : ∀ b ∈ natToDigits n, b ≠ 10 := fun b hb => (natToDigits_no_crlf n b hb).1
    have h13 : (natToDigits n).getLast? ≠ some 13 :=
      getLast?_ne13 _ (fun b hb => (natToDigits_no_crlf n b hb).2)
    have hrl := readline_append (natToDigits n) stream h10
    have hrs := rstripCRLF_append (natToDigits n) h10 h13
    simp [handle_request, hrl, hrs, parseIntBytes_natToDigits, Int.toNat_natCast, hdec, hhash]
  · rw [← hplen]
    exact pyDictOfPairs_length_lt _ hdup

theorem C10_dict_duplicates_witness :
    decodeN (handle_request 5) (2 * 2)
        [36, 49, 13, 10, 97, 13, 10, 58, 49, 13, 10, 36, 49, 13, 10, 97, 13, 10, 58, 50, 13, 10]
      = .ok (.cons (.str [97]) (.cons (.int 1) (.cons (.str [97]) (.cons (.int 2) .nil))), []) ∧
    (pyDictOfPairs (pairUpV
        (.cons (.str [97]) (.cons (.int 1) (.cons (.str [97]) (.cons (.int 2) .nil)))))).length
      < 2 :=
  ⟨rfl, (C10_dict_duplicates 5 2
      [36, 49, 13, 10, 97, 13, 10, 58, 49, 13, 10, 36, 49, 13, 10, 97, 13, 10, 58, 50, 13, 10] []
      (.cons (.str [97]) (.cons (.int 1) (.cons (.str [97]) (.cons (.int 2) .nil))))
      rfl rfl rfl).2.1⟩

end RedisDB
